import Mathlib

/-! Shallow embedding of the course-analytics helper functions of
`src/routes/faculty.js`: `calculateAverageAttendance`,
`calculateAssignmentCompletion`, `generatePerformanceDistribution` and
`calculateWeeklyEngagement`.

Conventions:
* JS numbers carrying scores and percentages are modelled as rationals (ℚ);
  timestamps (millisecond epoch values, as produced by `Date` subtraction)
  are modelled as integers (ℤ).
* Student identities (`ObjectId` values, coerced to strings when used as JS
  object keys) are modelled as `String`.
* A JS plain object used as a counter map is modelled as an association list
  in key-insertion order: assigning to an existing key updates it in place,
  assigning to a fresh key appends it, mirroring JS property-order semantics.
* `new Date()` inside `calculateWeeklyEngagement` is modelled by a clock
  `ℕ → ℤ` giving the value of each successive call: the source reads the
  clock once at the start (for `fourWeeksAgo`) and once per processed
  submission, inside the loop body.
-/

/-- A submission record `{ student, submittedAt, totalScore }`. -/
structure Submission where
  student : String
  submittedAt : Int
  totalScore : ℚ
  deriving DecidableEq

/-- An assignment together with its submissions. -/
structure Assignment where
  submissions : List Submission
  deriving DecidableEq

/-- One `(student, status)` row of an attendance session. -/
structure AttendanceRecord where
  student : String
  status : String
  deriving DecidableEq

/-- An attendance session; the source reads `record.students`. -/
structure AttendanceSession where
  students : List AttendanceRecord
  deriving DecidableEq

/-- Total count of records whose status is exactly `present`, across all
sessions: the `reduce`/`filter` accumulation in `calculateAverageAttendance`. -/
def presentCount (attendance : List AttendanceSession) : Nat :=
  attendance.foldl
    (fun total record =>
      total + (record.students.filter (fun s => s.status == "present")).length)
    0

/-- `calculateAverageAttendance` (src/routes/faculty.js lines 216-222):
`0` for an empty list, otherwise present markings divided by
(session count × roster size of the first session), times 100. -/
def calculateAverageAttendance (attendance : List AttendanceSession) : ℚ :=
  match attendance with
  | [] => 0
  | first :: rest =>
    (presentCount (first :: rest) : ℚ)
      / (((first :: rest).length : ℚ) * (first.students.length : ℚ)) * 100

/-- JS object update `m[k] = (m[k] || 0) + 1` on an insertion-ordered map:
an existing key is updated in place, a fresh key is appended. -/
def bumpKey (m : List (String × Nat)) (k : String) : List (String × Nat) :=
  match m with
  | [] => [(k, 1)]
  | (k2, v) :: rest => if k2 = k then (k2, v + 1) :: rest else (k2, v) :: bumpKey rest k

/-- Reading `m[k]` from the insertion-ordered map. -/
def getKey (m : List (String × Nat)) (k : String) : Option Nat :=
  match m with
  | [] => none
  | (k2, v) :: rest => if k2 = k then some v else getKey rest k

/-- The `studentCompletions` object of `calculateAssignmentCompletion` after
both `forEach` loops: one `bumpKey` per submission, in input order. -/
def studentCompletions (assignments : List Assignment) : List (String × Nat) :=
  assignments.foldl
    (fun m assignment =>
      assignment.submissions.foldl
        (fun m2 submission => bumpKey m2 submission.student) m)
    []

/-- `calculateAssignmentCompletion` (src/routes/faculty.js lines 224-237).
The `students` parameter exists in the source but is never read. -/
def calculateAssignmentCompletion
    (assignments : List Assignment) (students : List String) : List ℚ :=
  (studentCompletions assignments).map
    (fun completed => (completed.2 : ℚ) / (assignments.length : ℚ) * 100)

/-- The five score buckets of `generatePerformanceDistribution`. -/
structure Distribution where
  b0to20 : Nat
  b21to40 : Nat
  b41to60 : Nat
  b61to80 : Nat
  b81to100 : Nat
  deriving DecidableEq

/-- Score a student got on one assignment:
`submission ? submission.totalScore : 0` over `find` on the submissions. -/
def scoreFor (assignment : Assignment) (studentId : String) : ℚ :=
  match assignment.submissions.find? (fun s => s.student == studentId) with
  | some submission => submission.totalScore
  | none => 0

/-- The `if/else` chain of `generatePerformanceDistribution` applied to a
(non-NaN) average score: inclusive upper bounds 20, 40, 60, 80, final
`else` for everything above 80. -/
def classifyInto (d : Distribution) (avgScore : ℚ) : Distribution :=
  if avgScore ≤ 20 then { d with b0to20 := d.b0to20 + 1 }
  else if avgScore ≤ 40 then { d with b21to40 := d.b21to40 + 1 }
  else if avgScore ≤ 60 then { d with b41to60 := d.b41to60 + 1 }
  else if avgScore ≤ 80 then { d with b61to80 := d.b61to80 + 1 }
  else { d with b81to100 := d.b81to100 + 1 }

/-- Loop body of the `students.forEach` in `generatePerformanceDistribution`:
collect the student's score on every assignment (0 when unsubmitted), average
them, classify. With zero assignments the source computes `avgScore = 0/0`,
the float `NaN`; every `<=` comparison against `NaN` is false, so control
falls through to the final `else` branch and the student is counted in
`81-100`. Rational division cannot represent `NaN`, so that control path is
written out as the empty-scores case here. -/
def tallyStudent (assignments : List Assignment) (d : Distribution) (studentId : String) :
    Distribution :=
  let scores := assignments.map (fun a => scoreFor a studentId)
  match scores with
  | [] => { d with b81to100 := d.b81to100 + 1 }
  | s :: ss => classifyInto d ((s :: ss).sum / (((s :: ss).length : ℕ) : ℚ))

/-- `generatePerformanceDistribution` (src/routes/faculty.js lines 239-267). -/
def generatePerformanceDistribution
    (assignments : List Assignment) (students : List String) : Distribution :=
  students.foldl (tallyStudent assignments) ⟨0, 0, 0, 0, 0⟩

/-- Milliseconds in a day. -/
def msPerDay : Int := 24 * 60 * 60 * 1000

/-- `7 * 24 * 60 * 60 * 1000`, the divisor in the week-index computation. -/
def msPerWeek : Int := 7 * msPerDay

/-- `weeklyData[i]++` on the bucket array. -/
def incrNth : List Nat → Nat → List Nat
  | [], _ => []
  | x :: xs, 0 => (x + 1) :: xs
  | x :: xs, n + 1 => x :: incrNth xs n

/-- `calculateWeeklyEngagement` (src/routes/faculty.js lines 269-295), with
the database access made explicit: the Mongoose `populate` `match` keeps an
assignment exactly when at least one of its submissions has
`submittedAt >= fourWeeksAgo`. `clock i` is the value of the `i`-th
`new Date()` call: call 0 computes `fourWeeksAgo` (28 days, in
milliseconds, before that reading; the source uses `setDate`, which differs
only across daylight-saving transitions, out of scope in this integer-time
model), and call `i + 1` happens while processing the `i`-th kept
submission, inside the loop; the source binds that call's week index to a
local `weekIndex`, written out inline here. -/
def calculateWeeklyEngagement (clock : Nat → Int) (assignments : List Assignment) : List Nat :=
  let fourWeeksAgo := clock 0 - 28 * msPerDay
  let kept := assignments.filter
    (fun a => a.submissions.any (fun s => fourWeeksAgo ≤ s.submittedAt))
  let subs := (kept.map (fun a => a.submissions)).flatten
  (((List.range subs.length).zip subs).foldl
    (fun weeklyData p =>
      if 0 ≤ (clock (p.1 + 1) - p.2.submittedAt).fdiv msPerWeek ∧
          (clock (p.1 + 1) - p.2.submittedAt).fdiv msPerWeek < 4 then
        incrNth weeklyData ((clock (p.1 + 1) - p.2.submittedAt).fdiv msPerWeek).toNat
      else weeklyData)
    [0, 0, 0, 0]).reverse

/-! Helper lemmas about the attendance computation. -/

theorem foldl_add_eq_sum (f : AttendanceSession → Nat) :
    ∀ (l : List AttendanceSession) (n : Nat),
      l.foldl (fun total record => total + f record) n = n + (l.map f).sum := by
  intro l
  induction l with
  | nil => intro n; simp
  | cons hd tl ih =>
    intro n
    simp only [List.foldl_cons, List.map_cons, List.sum_cons, ih]
    omega

theorem presentCount_eq_sum (attendance : List AttendanceSession) :
    presentCount attendance =
      (attendance.map
        (fun record => (record.students.filter (fun s => s.status == "present")).length)).sum := by
  unfold presentCount
  rw [foldl_add_eq_sum]
  omega

theorem presentCount_le (attendance : List AttendanceSession) (m : Nat)
    (h : ∀ s ∈ attendance, s.students.length ≤ m) :
    presentCount attendance ≤ attendance.length * m := by
  rw [presentCount_eq_sum]
  induction attendance with
  | nil => simp
  | cons hd tl ih =>
    simp only [List.map_cons, List.sum_cons, List.length_cons]
    have h1 : (hd.students.filter (fun s => s.status == "present")).length ≤ m :=
      le_trans (List.length_filter_le _ _) (h hd (by simp))
    have h2 := ih (fun s hs => h s (by simp [hs]))
    calc (hd.students.filter (fun s => s.status == "present")).length
          + (tl.map (fun record =>
              (record.students.filter (fun s => s.status == "present")).length)).sum
        ≤ m + tl.length * m := Nat.add_le_add h1 h2
      _ = (tl.length + 1) * m := by ring

/-- Claim C4 (counterexample): with heterogeneous roster sizes the returned
value is not confined to [0, 100]. Two sessions, the first with a single
(present) record and the second with five present records, give
6 / (2 × 1) × 100 = 300. -/
theorem attendance_rate_can_exceed_100 :
    100 < calculateAverageAttendance
      [⟨[⟨"a", "present"⟩]⟩,
       ⟨[⟨"b", "present"⟩, ⟨"c", "present"⟩, ⟨"d", "present"⟩,
         ⟨"e", "present"⟩, ⟨"f", "present"⟩]⟩] := by
  have h : presentCount
      [⟨[⟨"a", "present"⟩]⟩,
       ⟨[⟨"b", "present"⟩, ⟨"c", "present"⟩, ⟨"d", "present"⟩,
         ⟨"e", "present"⟩, ⟨"f", "present"⟩]⟩] = 6 := by decide
  simp only [calculateAverageAttendance, h]
  norm_num

/-- Claim C4 (amended): the value of `calculateAverageAttendance` lies in
[0, 100] provided the first session has a non-empty student list and no
session carries more student records than the first (the source divides by
session count × first-session roster size, so larger later sessions can push
the rate beyond 100, and the all-empty case divides by zero in the source). -/
theorem attendance_rate_bounds_of_uniform_roster
    (first : AttendanceSession) (rest : List AttendanceSession)
    (hfirst : 0 < first.students.length)
    (hsizes : ∀ s ∈ rest, s.students.length ≤ first.students.length) :
    0 ≤ calculateAverageAttendance (first :: rest) ∧
      calculateAverageAttendance (first :: rest) ≤ 100 := by
  have hall : ∀ s ∈ first :: rest, s.students.length ≤ first.students.length := by
    intro s hs
    rcases List.mem_cons.mp hs with h | h
    · exact le_of_eq (by rw [h])
    · exact hsizes s h
  have hle := presentCount_le (first :: rest) first.students.length hall
  have hlen : 0 < (first :: rest).length := by simp
  have hden : (0 : ℚ) < ((first :: rest).length : ℚ) * (first.students.length : ℚ) := by
    have := mul_pos hlen hfirst
    exact_mod_cast this
  have hleQ : (presentCount (first :: rest) : ℚ)
      ≤ ((first :: rest).length : ℚ) * (first.students.length : ℚ) := by
    exact_mod_cast hle
  constructor
  · simp only [calculateAverageAttendance]
    positivity
  · simp only [calculateAverageAttendance]
    calc (presentCount (first :: rest) : ℚ)
          / (((first :: rest).length : ℚ) * (first.students.length : ℚ)) * 100
        ≤ 1 * 100 := by
          apply mul_le_mul_of_nonneg_right _ (by norm_num)
          exact (div_le_one hden).mpr hleQ
      _ = 100 := by norm_num

/-- Claim C4 (witness): the bounds hold at a single one-record session. -/
theorem attendance_rate_bounds_witness :
    0 ≤ calculateAverageAttendance [⟨[⟨"a", "present"⟩]⟩] ∧
      calculateAverageAttendance [⟨[⟨"a", "present"⟩]⟩] ≤ 100 :=
  attendance_rate_bounds_of_uniform_roster ⟨[⟨"a", "present"⟩]⟩ []
    (by decide) (by simp)

/-- Claim C5: the empty session list yields exactly 0, and a non-empty one
yields the count of records whose status is exactly the string `present`
(statuses such as `absent` or `excused` never match), divided by session
count times the first session's student-list length, times 100. -/
theorem attendance_empty_and_formula :
    calculateAverageAttendance [] = 0 ∧
    ∀ (first : AttendanceSession) (rest : List AttendanceSession),
      calculateAverageAttendance (first :: rest) =
        ((((first :: rest).map
            (fun sess => sess.students.countP (fun r => r.status == "present"))).sum : ℕ) : ℚ)
          / (((first :: rest).length : ℚ) * (first.students.length : ℚ)) * 100 := by
  constructor
  · rfl
  · intro first rest
    simp only [calculateAverageAttendance, presentCount_eq_sum,
      List.countP_eq_length_filter]

/-- Claim C1: with zero assignments the source does not skip students: the
per-student average is the float NaN, which fails every `<=` test, so each
student is counted in the `81-100` bucket rather than in none. -/
theorem zeroAssignments_student_lands_in_top_bucket :
    generatePerformanceDistribution [] ["s1"] = ⟨0, 0, 0, 0, 1⟩ ∧
      generatePerformanceDistribution [] ["s1"] ≠ ⟨0, 0, 0, 0, 0⟩ := by
  constructor
  · norm_num [generatePerformanceDistribution, tallyStudent]
  · norm_num [generatePerformanceDistribution, tallyStudent]

/-- Total of the five buckets grows by exactly one for every student tallied:
the if/else chain of the source increments exactly one bucket. -/
theorem tallyStudent_total (assignments : List Assignment) (d : Distribution) (sid : String) :
    (tallyStudent assignments d sid).b0to20 + (tallyStudent assignments d sid).b21to40
      + (tallyStudent assignments d sid).b41to60 + (tallyStudent assignments d sid).b61to80
      + (tallyStudent assignments d sid).b81to100
      = d.b0to20 + d.b21to40 + d.b41to60 + d.b61to80 + d.b81to100 + 1 := by
  rcases hA : assignments.map (fun a => scoreFor a sid) with _ | ⟨s, ss⟩ <;>
      simp only [tallyStudent, hA, classifyInto]
  · omega
  · split_ifs <;> simp <;> omega

/-- Folding `tallyStudent` adds the number of tallied students to the total. -/
theorem foldl_tallyStudent_total (assignments : List Assignment) :
    ∀ (students : List String) (d : Distribution),
      ((students.foldl (tallyStudent assignments) d).b0to20
        + (students.foldl (tallyStudent assignments) d).b21to40
        + (students.foldl (tallyStudent assignments) d).b41to60
        + (students.foldl (tallyStudent assignments) d).b61to80
        + (students.foldl (tallyStudent assignments) d).b81to100)
      = d.b0to20 + d.b21to40 + d.b41to60 + d.b61to80 + d.b81to100 + students.length := by
  intro students
  induction students with
  | nil => intro d; simp
  | cons hd tl ih =>
    intro d
    simp only [List.foldl_cons, List.length_cons, ih, tallyStudent_total]
    omega

/-- Claim C9: the five bucket counts of `generatePerformanceDistribution`
always sum to the roster size: every student, submitter or not, lands in
exactly one bucket of the if/else chain (with zero assignments, in `81-100`). -/
theorem performance_distribution_total_is_roster_size
    (assignments : List Assignment) (students : List String) :
    (generatePerformanceDistribution assignments students).b0to20
      + (generatePerformanceDistribution assignments students).b21to40
      + (generatePerformanceDistribution assignments students).b41to60
      + (generatePerformanceDistribution assignments students).b61to80
      + (generatePerformanceDistribution assignments students).b81to100
      = students.length := by
  unfold generatePerformanceDistribution
  rw [foldl_tallyStudent_total]
  simp

/-- Claim C7: the bucket comparisons are inclusive on the upper bound: an
average of exactly 20 lands in `0-20`, 40 in `21-40`, 60 in `41-60`, 80 in
`61-80`, anything above 80 (up to 100) in `81-100`; exactly one bucket is
incremented. The last conjunct shows a missing submission entering the
average as 0: one score of 40 over two assignments averages to 20, bucket
`0-20`. -/
theorem bucket_boundaries_inclusive (d : Distribution) (x : ℚ)
    (h1 : 80 < x) (h2 : x ≤ 100) :
    classifyInto d 20 = { d with b0to20 := d.b0to20 + 1 } ∧
    classifyInto d 40 = { d with b21to40 := d.b21to40 + 1 } ∧
    classifyInto d 60 = { d with b41to60 := d.b41to60 + 1 } ∧
    classifyInto d 80 = { d with b61to80 := d.b61to80 + 1 } ∧
    classifyInto d x = { d with b81to100 := d.b81to100 + 1 } ∧
    generatePerformanceDistribution [⟨[⟨"A", 0, 20⟩]⟩] ["A"] = ⟨1, 0, 0, 0, 0⟩ ∧
    generatePerformanceDistribution [⟨[⟨"A", 0, 40⟩]⟩] ["A"] = ⟨0, 1, 0, 0, 0⟩ ∧
    generatePerformanceDistribution [⟨[⟨"A", 0, 60⟩]⟩] ["A"] = ⟨0, 0, 1, 0, 0⟩ ∧
    generatePerformanceDistribution [⟨[⟨"A", 0, 80⟩]⟩] ["A"] = ⟨0, 0, 0, 1, 0⟩ ∧
    generatePerformanceDistribution [⟨[⟨"A", 0, 40⟩]⟩, ⟨[]⟩] ["A"] = ⟨1, 0, 0, 0, 0⟩ := by
  refine ⟨?_, ?_, ?_, ?_, ?_, ?_, ?_, ?_, ?_, ?_⟩
  · norm_num [classifyInto]
  · norm_num [classifyInto]
  · norm_num [classifyInto]
  · norm_num [classifyInto]
  · rw [classifyInto, if_neg (by linarith), if_neg (by linarith),
      if_neg (by linarith), if_neg (by linarith)]
  · norm_num [generatePerformanceDistribution, tallyStudent, classifyInto, scoreFor, List.find?]
  · norm_num [generatePerformanceDistribution, tallyStudent, classifyInto, scoreFor, List.find?]
  · norm_num [generatePerformanceDistribution, tallyStudent, classifyInto, scoreFor, List.find?]
  · norm_num [generatePerformanceDistribution, tallyStudent, classifyInto, scoreFor, List.find?]
  · norm_num [generatePerformanceDistribution, tallyStudent, classifyInto, scoreFor, List.find?]

/-- Claim C7 (witness): instantiation at the zero distribution and x = 90. -/
theorem bucket_boundaries_inclusive_witness :
    classifyInto ⟨0, 0, 0, 0, 0⟩ 20 = ⟨1, 0, 0, 0, 0⟩ ∧
    classifyInto ⟨0, 0, 0, 0, 0⟩ 40 = ⟨0, 1, 0, 0, 0⟩ ∧
    classifyInto ⟨0, 0, 0, 0, 0⟩ 60 = ⟨0, 0, 1, 0, 0⟩ ∧
    classifyInto ⟨0, 0, 0, 0, 0⟩ 80 = ⟨0, 0, 0, 1, 0⟩ ∧
    classifyInto ⟨0, 0, 0, 0, 0⟩ 90 = ⟨0, 0, 0, 0, 1⟩ ∧
    generatePerformanceDistribution [⟨[⟨"A", 0, 20⟩]⟩] ["A"] = ⟨1, 0, 0, 0, 0⟩ ∧
    generatePerformanceDistribution [⟨[⟨"A", 0, 40⟩]⟩] ["A"] = ⟨0, 1, 0, 0, 0⟩ ∧
    generatePerformanceDistribution [⟨[⟨"A", 0, 60⟩]⟩] ["A"] = ⟨0, 0, 1, 0, 0⟩ ∧
    generatePerformanceDistribution [⟨[⟨"A", 0, 80⟩]⟩] ["A"] = ⟨0, 0, 0, 1, 0⟩ ∧
    generatePerformanceDistribution [⟨[⟨"A", 0, 40⟩]⟩, ⟨[]⟩] ["A"] = ⟨1, 0, 0, 0, 0⟩ :=
  bucket_boundaries_inclusive ⟨0, 0, 0, 0, 0⟩ 90 (by norm_num) (by norm_num)


/-! Helper lemmas about the insertion-ordered counter map. -/

theorem getKey_bumpKey (m : List (String × Nat)) (k k2 : String) :
    getKey (bumpKey m k) k2 =
      if k2 = k then some ((getKey m k).getD 0 + 1) else getKey m k2 := by
  induction m with
  | nil =>
    by_cases h : k2 = k
    · subst h; simp [bumpKey, getKey]
    · simp [bumpKey, getKey, h, Ne.symm h]
  | cons hd tl ih =>
    obtain ⟨k3, v⟩ := hd
    by_cases h3 : k3 = k
    · subst h3
      by_cases h2 : k2 = k3
      · subst h2; simp [bumpKey, getKey]
      · simp [bumpKey, getKey, h2, Ne.symm h2]
    · by_cases h2 : k2 = k3
      · subst h2
        simp [bumpKey, getKey, h3]
      · simp [bumpKey, getKey, h3, h2, Ne.symm h2, ih]

theorem keys_bumpKey (m : List (String × Nat)) (k : String) :
    (bumpKey m k).map Prod.fst =
      if k ∈ m.map Prod.fst then m.map Prod.fst else m.map Prod.fst ++ [k] := by
  induction m with
  | nil => simp [bumpKey]
  | cons hd tl ih =>
    obtain ⟨k3, v⟩ := hd
    by_cases h3 : k3 = k
    · subst h3
      simp [bumpKey]
    · simp only [bumpKey, if_neg h3, List.map_cons, ih]
      by_cases hmem : k ∈ tl.map Prod.fst <;>
        simp [hmem, Ne.symm h3]

theorem mem_keys_iff_getKey (m : List (String × Nat)) (k : String) :
    k ∈ m.map Prod.fst ↔ getKey m k ≠ none := by
  induction m with
  | nil => simp [getKey]
  | cons hd tl ih =>
    obtain ⟨k3, v⟩ := hd
    by_cases h3 : k3 = k
    · subst h3; simp [getKey]
    · simp [getKey, h3, Ne.symm h3, ih]

theorem nodup_keys_bumpKey (m : List (String × Nat)) (k : String)
    (h : (m.map Prod.fst).Nodup) : ((bumpKey m k).map Prod.fst).Nodup := by
  rw [keys_bumpKey]
  by_cases hmem : k ∈ m.map Prod.fst
  · simpa [hmem] using h
  · rw [if_neg hmem, List.nodup_append]
    refine ⟨h, List.nodup_singleton k, ?_⟩
    intro x hx hx2
    rw [List.mem_singleton] at hx2
    exact hmem (hx2 ▸ hx)

theorem getKey_foldl_bumpKey (keys : List String) :
    ∀ (m : List (String × Nat)) (k : String),
      getKey (keys.foldl bumpKey m) k =
        if getKey m k = none ∧ keys.count k = 0 then none
        else some ((getKey m k).getD 0 + keys.count k) := by
  induction keys with
  | nil =>
    intro m k
    rcases h : getKey m k with _ | v <;> simp [h]
  | cons a keys ih =>
    intro m k
    simp only [List.foldl_cons, ih, getKey_bumpKey, List.count_cons]
    by_cases hka : k = a
    · subst hka
      rcases h : getKey m k with _ | v <;> simp [h] <;> omega
    · simp [hka, Ne.symm hka]

theorem nodup_keys_foldl_bumpKey (keys : List String) :
    ∀ (m : List (String × Nat)), (m.map Prod.fst).Nodup →
      ((keys.foldl bumpKey m).map Prod.fst).Nodup := by
  induction keys with
  | nil => intro m h; simpa using h
  | cons a keys ih =>
    intro m h
    exact ih (bumpKey m a) (nodup_keys_bumpKey m a h)

theorem mem_of_getKey_some (m : List (String × Nat)) (kv : String × Nat)
    (h : getKey m kv.1 = some kv.2) : kv ∈ m := by
  induction m with
  | nil => simp [getKey] at h
  | cons hd tl ih =>
    obtain ⟨k3, v⟩ := hd
    by_cases h3 : k3 = kv.1
    · subst h3
      simp only [getKey, if_pos rfl, Option.some.injEq] at h
      obtain ⟨kv1, kv2⟩ := kv
      simp_all
    · simp only [getKey, if_neg h3] at h
      exact List.mem_cons_of_mem _ (ih h)

theorem getKey_some_of_mem (m : List (String × Nat)) (kv : String × Nat)
    (hnd : (m.map Prod.fst).Nodup) (h : kv ∈ m) : getKey m kv.1 = some kv.2 := by
  induction m with
  | nil => simp at h
  | cons hd tl ih =>
    obtain ⟨k3, v⟩ := hd
    simp only [List.map_cons, List.nodup_cons] at hnd
    rcases List.mem_cons.mp h with heq | hmem
    · subst heq
      simp [getKey]
    · have h3 : k3 ≠ kv.1 := by
        intro hc
        exact hnd.1 (hc ▸ List.mem_map_of_mem Prod.fst hmem)
      simp only [getKey, if_neg h3]
      exact ih hnd.2 hmem

/-- The two nested `forEach` loops over assignments and submissions bump the
counter once per submission, in flattened input order. -/
theorem studentCompletions_eq_foldl (assignments : List Assignment) :
    studentCompletions assignments =
      ((assignments.map (fun a => a.submissions.map (fun s => s.student))).flatten).foldl
        bumpKey [] := by
  unfold studentCompletions
  suffices hgen : ∀ (l : List Assignment) (m : List (String × Nat)),
      l.foldl (fun m2 assignment =>
        assignment.submissions.foldl (fun m3 submission => bumpKey m3 submission.student) m2) m
      = ((l.map (fun a => a.submissions.map (fun s => s.student))).flatten).foldl bumpKey m by
    exact hgen assignments []
  intro l
  induction l with
  | nil => intro m; simp
  | cons hd tl ih =>
    intro m
    simp only [List.foldl_cons, List.map_cons, List.flatten_cons, List.foldl_append, ih,
      List.foldl_map]

/-- Keys of the completion counter never repeat. -/
theorem nodup_keys_studentCompletions (assignments : List Assignment) :
    ((studentCompletions assignments).map Prod.fst).Nodup := by
  rw [studentCompletions_eq_foldl]
  exact nodup_keys_foldl_bumpKey _ [] (by simp)

/-- A key is present in the completion counter exactly when the student
appears among the submissions of some assignment. -/
theorem mem_keys_studentCompletions (assignments : List Assignment) (k : String) :
    k ∈ (studentCompletions assignments).map Prod.fst ↔
      k ∈ (assignments.map (fun a => a.submissions.map (fun s => s.student))).flatten := by
  rw [studentCompletions_eq_foldl, mem_keys_iff_getKey, getKey_foldl_bumpKey]
  by_cases hc :
      ((assignments.map (fun a => a.submissions.map (fun s => s.student))).flatten).count k = 0
  · simp [getKey, hc, List.count_eq_zero.mp hc]
  · have hmem : k ∈ (assignments.map (fun a => a.submissions.map (fun s => s.student))).flatten := by
      by_contra hnot
      exact hc (List.count_eq_zero.mpr hnot)
    simp [getKey, hc, hmem]

/-- The counter value stored for a student is the number of that student's
submissions across all assignments, duplicates included. -/
theorem studentCompletions_value (assignments : List Assignment) (kv : String × Nat)
    (hkv : kv ∈ studentCompletions assignments) :
    kv.2 = ((assignments.map (fun a => a.submissions.map (fun s => s.student))).flatten).count
      kv.1 := by
  have hget := getKey_some_of_mem _ kv (nodup_keys_studentCompletions assignments) hkv
  rw [studentCompletions_eq_foldl, getKey_foldl_bumpKey] at hget
  by_cases hc :
      ((assignments.map (fun a => a.submissions.map (fun s => s.student))).flatten).count kv.1
        = 0
  · simp [getKey, hc] at hget
  · simp only [getKey, hc, and_false, if_false, Option.getD_none, Option.some.injEq,
      Nat.zero_add] at hget
    omega

/-- Claim C2 (counterexample): two submissions by the same student to the
same single assignment are both counted, yielding 200, not the 100 the
last-duplicate-wins reading predicts. -/
theorem duplicate_submissions_inflate_completion :
    calculateAssignmentCompletion [⟨[⟨"A", 0, 50⟩, ⟨"A", 0, 60⟩]⟩] ["A"] = [200] ∧
    calculateAssignmentCompletion [⟨[⟨"A", 0, 60⟩]⟩] ["A"] = [100] ∧
    calculateAssignmentCompletion [⟨[⟨"A", 0, 50⟩, ⟨"A", 0, 60⟩]⟩] ["A"]
      ≠ calculateAssignmentCompletion [⟨[⟨"A", 0, 60⟩]⟩] ["A"] := by
  refine ⟨?_, ?_, ?_⟩ <;>
    norm_num [calculateAssignmentCompletion, studentCompletions, bumpKey]

/-- Claim C2 (amended): duplicate submissions are not deduplicated: every
submission increments its student's counter, so the stored count equals the
total number of that student's submissions across all assignments, in any
input order (and the emitted percentage can exceed 100). -/
theorem completion_value_counts_every_submission
    (assignments : List Assignment) (kv : String × Nat)
    (hkv : kv ∈ studentCompletions assignments) :
    kv.2 = ((assignments.map (fun a => a.submissions.map (fun s => s.student))).flatten).count
      kv.1 :=
  studentCompletions_value assignments kv hkv

/-- Claim C2 (witness): the duplicate pair stores count 2. -/
theorem completion_value_counts_every_submission_witness :
    (2 : Nat) = (([⟨[⟨"A", 0, 50⟩, ⟨"A", 0, 60⟩]⟩] : List Assignment).map
      (fun a => a.submissions.map (fun s => s.student))).flatten.count "A" :=
  completion_value_counts_every_submission [⟨[⟨"A", 0, 50⟩, ⟨"A", 0, 60⟩]⟩] ("A", 2)
    (by decide)

/-- Claim C6: the completion result has exactly one entry per student who
submitted at least once (keys duplicate-free, present iff the student
appears among the submissions, one percentage per entry), and no entry for
anyone else; concretely, with one assignment and students A, B where only A
submits, the result is exactly [100]. -/
theorem completion_one_entry_per_submitting_student
    (assignments : List Assignment) (students : List String) :
    ((studentCompletions assignments).map Prod.fst).Nodup ∧
    (∀ k : String, k ∈ (studentCompletions assignments).map Prod.fst ↔
      k ∈ (assignments.map (fun a => a.submissions.map (fun s => s.student))).flatten) ∧
    (calculateAssignmentCompletion assignments students).length
      = (studentCompletions assignments).length ∧
    calculateAssignmentCompletion [⟨[⟨"A", 0, 95⟩]⟩] ["A", "B"] = [100] := by
  refine ⟨nodup_keys_studentCompletions assignments,
    mem_keys_studentCompletions assignments, ?_, ?_⟩
  · simp [calculateAssignmentCompletion]
  · norm_num [calculateAssignmentCompletion, studentCompletions, bumpKey]

/-- Claim C10: with at least one assignment, every emitted completion
percentage is at least 100 divided by the number of assignments, and in
particular strictly positive: an entry exists only once at least one
submission has been counted for that student. -/
theorem completion_percentages_positive_lower_bound
    (assignments : List Assignment) (students : List String) (v : ℚ)
    (hne : assignments ≠ [])
    (hv : v ∈ calculateAssignmentCompletion assignments students) :
    100 / (assignments.length : ℚ) ≤ v ∧ 0 < v := by
  obtain ⟨kv, hkv, hval⟩ := List.mem_map.mp hv
  have h1 : 1 ≤ kv.2 := by
    have hk2 := (mem_keys_studentCompletions assignments kv.1).mp
      (List.mem_map_of_mem Prod.fst hkv)
    rw [studentCompletions_value assignments kv hkv]
    rcases Nat.eq_zero_or_pos
        (((assignments.map (fun a => a.submissions.map (fun s => s.student))).flatten).count
          kv.1) with h0 | hpos
    · exact absurd hk2 (List.count_eq_zero.mp h0)
    · omega
  have hlen : 0 < assignments.length := List.length_pos.mpr hne
  have hlenQ : (0 : ℚ) < (assignments.length : ℚ) := by exact_mod_cast hlen
  have hkQ : (1 : ℚ) ≤ (kv.2 : ℚ) := by exact_mod_cast h1
  have hv2 : v = (kv.2 : ℚ) / (assignments.length : ℚ) * 100 := hval.symm
  rw [hv2]
  constructor
  · rw [div_mul_eq_mul_div, div_le_div_iff₀ hlenQ hlenQ]
    nlinarith
  · have hkpos : (0 : ℚ) < (kv.2 : ℚ) := by linarith
    exact mul_pos (div_pos hkpos hlenQ) (by norm_num)

/-- Claim C10 (witness): one assignment, one submission, value 100. -/
theorem completion_percentages_positive_lower_bound_witness :
    100 / (([⟨[⟨"A", 0, 95⟩]⟩] : List Assignment).length : ℚ) ≤ 100 ∧ (0 : ℚ) < 100 :=
  completion_percentages_positive_lower_bound [⟨[⟨"A", 0, 95⟩]⟩] [] 100 (by simp)
    (by norm_num [calculateAssignmentCompletion, studentCompletions, bumpKey])

/-- Claim C3: `new Date()` is evaluated inside the submission loop, not
captured once per call: with a clock that advances from 6 to 8 days between
the two submission iterations, the two identical submissions land in
different week buckets ([0,0,1,1]), while any single captured instant puts
them in the same bucket ([0,0,0,2]). -/
theorem engagement_clock_read_per_submission :
    calculateWeeklyEngagement (fun i => if i ≤ 1 then 6 * msPerDay else 8 * msPerDay)
        [⟨[⟨"A", 0, 1⟩, ⟨"B", 0, 1⟩]⟩] = [0, 0, 1, 1] ∧
    calculateWeeklyEngagement (fun _ => 6 * msPerDay) [⟨[⟨"A", 0, 1⟩, ⟨"B", 0, 1⟩]⟩]
        = [0, 0, 0, 2] ∧
    calculateWeeklyEngagement (fun i => if i ≤ 1 then 6 * msPerDay else 8 * msPerDay)
        [⟨[⟨"A", 0, 1⟩, ⟨"B", 0, 1⟩]⟩]
      ≠ calculateWeeklyEngagement (fun _ => 6 * msPerDay) [⟨[⟨"A", 0, 1⟩, ⟨"B", 0, 1⟩]⟩] :=
  ⟨by decide, by decide, by decide⟩

/-- With a divisor of a week in milliseconds, a difference of at least four
weeks floors to a quotient of at least 4. -/
theorem four_le_fdiv_of_four_weeks_le (a : Int) (h : 4 * msPerWeek ≤ a) :
    4 ≤ a.fdiv msPerWeek := by
  have hpos : (0 : Int) < msPerWeek := by norm_num [msPerWeek, msPerDay]
  rw [Int.fdiv_eq_ediv _ (le_of_lt hpos)]
  exact (Int.le_ediv_iff_mul_le hpos).mpr (by linarith)

/-- Bucket counting of the engagement fold with a constant clock: starting
from `[a, b, c, d]`, the fold adds to each bucket the number of submissions
whose week index equals that bucket's index, and out-of-range submissions
change nothing. -/
theorem engagement_fold_counts (now : Int) :
    ∀ (ts : List Submission) (n a b c d : ℕ),
      ((List.range' n ts.length).zip ts).foldl
        (fun weeklyData p =>
          if 0 ≤ (now - p.2.submittedAt).fdiv msPerWeek ∧
              (now - p.2.submittedAt).fdiv msPerWeek < 4 then
            incrNth weeklyData ((now - p.2.submittedAt).fdiv msPerWeek).toNat
          else weeklyData)
        [a, b, c, d]
      = [a + ts.countP (fun s => (now - s.submittedAt).fdiv msPerWeek == 0),
         b + ts.countP (fun s => (now - s.submittedAt).fdiv msPerWeek == 1),
         c + ts.countP (fun s => (now - s.submittedAt).fdiv msPerWeek == 2),
         d + ts.countP (fun s => (now - s.submittedAt).fdiv msPerWeek == 3)] := by
  intro ts
  induction ts with
  | nil => intro n a b c d; simp
  | cons t ts ih =>
    intro n a b c d
    rw [List.length_cons, List.range'_succ, List.zip_cons_cons, List.foldl_cons]
    by_cases h : 0 ≤ (now - t.submittedAt).fdiv msPerWeek ∧
        (now - t.submittedAt).fdiv msPerWeek < 4
    · have h03 : (now - t.submittedAt).fdiv msPerWeek = 0 ∨
          (now - t.submittedAt).fdiv msPerWeek = 1 ∨
          (now - t.submittedAt).fdiv msPerWeek = 2 ∨
          (now - t.submittedAt).fdiv msPerWeek = 3 := by omega
      rcases h03 with h0 | h1 | h2 | h3
      · simp only [if_pos h, h0, Int.toNat_zero, incrNth, List.countP_cons]
        simp [h0]
        rw [ih (n + 1) (a + 1) b c d]
        simp only [List.cons.injEq, and_true, true_and]
        omega
      · simp only [if_pos h, h1, Int.toNat_one, incrNth, List.countP_cons]
        simp [h1]
        rw [ih (n + 1) a (b + 1) c d]
        simp only [List.cons.injEq, and_true, true_and]
        omega
      · simp only [if_pos h, h2, List.countP_cons]
        simp [h2, incrNth]
        rw [ih (n + 1) a b (c + 1) d]
        simp only [List.cons.injEq, and_true, true_and]
        omega
      · simp only [if_pos h, h3, List.countP_cons]
        simp [h3, incrNth]
        rw [ih (n + 1) a b c (d + 1)]
        simp only [List.cons.injEq, and_true, true_and]
        omega
    · have hn0 : ¬(now - t.submittedAt).fdiv msPerWeek = 0 := by omega
      have hn1 : ¬(now - t.submittedAt).fdiv msPerWeek = 1 := by omega
      have hn2 : ¬(now - t.submittedAt).fdiv msPerWeek = 2 := by omega
      have hn3 : ¬(now - t.submittedAt).fdiv msPerWeek = 3 := by omega
      simp only [if_neg h, List.countP_cons]
      simp [hn0, hn1, hn2, hn3]
      rw [ih (n + 1) a b c d]

/-- The `populate` `match` filter is invisible to the week buckets: an
assignment it drops has only submissions older than 28 days, whose week
index is at least 4, so they are counted by no in-range bucket predicate. -/
theorem countP_flatten_filter_eq (now : Int) (assignments : List Assignment) (k : Int)
    (hk4 : k < 4) :
    ((((assignments.filter (fun a => a.submissions.any
        (fun s => now - 28 * msPerDay ≤ s.submittedAt))).map
          (fun a => a.submissions)).flatten).countP
        (fun s => (now - s.submittedAt).fdiv msPerWeek == k))
      = (((assignments.map (fun a => a.submissions)).flatten).countP
          (fun s => (now - s.submittedAt).fdiv msPerWeek == k)) := by
  induction assignments with
  | nil => simp
  | cons hd tl ih =>
    by_cases hq : hd.submissions.any
        (fun s => decide (now - 28 * msPerDay ≤ s.submittedAt)) = true
    · rw [List.filter_cons, if_pos hq]
      simp only [List.map_cons, List.flatten_cons, List.countP_append, ih]
    · have hzero : hd.submissions.countP
          (fun s => (now - s.submittedAt).fdiv msPerWeek == k) = 0 := by
        rw [List.countP_eq_zero]
        intro s hs
        have hlt : s.submittedAt < now - 28 * msPerDay := by
          by_contra hge
          push_neg at hge
          exact hq (List.any_eq_true.mpr ⟨s, hs, by simpa using hge⟩)
        have h4 : 4 ≤ (now - s.submittedAt).fdiv msPerWeek := by
          apply four_le_fdiv_of_four_weeks_le
          have : (28 : Int) * msPerDay = 4 * msPerWeek := by
            norm_num [msPerWeek, msPerDay]
          omega
        simp only [beq_iff_eq]
        omega
      rw [List.filter_cons, if_neg hq]
      simp only [List.map_cons, List.flatten_cons, List.countP_append, ih, hzero]
      omega

/-- Claim C8: with the reference instant held constant during the call, the
result lists, oldest week first, the number of submissions whose week index
`floor((now - submittedAt) / 7 days)` equals 3, 2, 1 and 0 respectively;
submissions whose index falls outside [0, 3] (older than 28 days, or in the
future) are counted nowhere, and the reversal puts the most recent week at
index 3. -/
theorem weekly_engagement_counts_and_reversal (now : Int) (assignments : List Assignment) :
    calculateWeeklyEngagement (fun _ => now) assignments =
      [((assignments.map (fun a => a.submissions)).flatten).countP
          (fun s => (now - s.submittedAt).fdiv msPerWeek == 3),
       ((assignments.map (fun a => a.submissions)).flatten).countP
          (fun s => (now - s.submittedAt).fdiv msPerWeek == 2),
       ((assignments.map (fun a => a.submissions)).flatten).countP
          (fun s => (now - s.submittedAt).fdiv msPerWeek == 1),
       ((assignments.map (fun a => a.submissions)).flatten).countP
          (fun s => (now - s.submittedAt).fdiv msPerWeek == 0)] := by
  simp only [calculateWeeklyEngagement]
  rw [List.range_eq_range', engagement_fold_counts now _ 0 0 0 0 0]
  rw [countP_flatten_filter_eq now assignments 0 (by norm_num),
    countP_flatten_filter_eq now assignments 1 (by norm_num),
    countP_flatten_filter_eq now assignments 2 (by norm_num),
    countP_flatten_filter_eq now assignments 3 (by norm_num)]
  simp
